import Mathlib

/-!
Verification of the Ayusynapse clinical-trial matching web application
(src/app.py, src/simple_app.py, src/database.py) against its specification.

Python values passed around as JSON-like dicts/lists are embedded by the
inductive type `J`; Python dicts are association lists preserving insertion
order.  Fallible Python code (dict subscripting, attribute access on the
wrong type) is embedded in `Except String`.  Numbers are embedded as `ℚ`.

Model restrictions, noted where they apply:
* membership tests (`'k' in d`) and subscripting are modelled on objects;
  on other values the model raises, as CPython does for most of them;
* the SQLite layer's serialisation (`json.dumps`/`json.loads`) is the
  identity on the embedded values, and its unspecified order among rows
  with equal sort keys is modelled by a stable insertion sort — only
  permutation facts are claimed about it.
-/

/-- JSON-like Python values: `None`, strings, numbers, booleans, lists and
dicts (association lists in insertion order). -/
inductive J where
  | null : J
  | str : String → J
  | num : ℚ → J
  | bool : Bool → J
  | arr : List J → J
  | obj : List (String × J) → J

/-- Dict lookup `d[k]` / `d.get(k)` on a string-keyed object body. -/
def dlookupL (d : List (String × J)) (k : String) : Option J :=
  match d with
  | [] => none
  | (k', v) :: t => if k' = k then some v else dlookupL t k

/-- Membership test `k in d` on a string-keyed object body. -/
def dContainsL (d : List (String × J)) (k : String) : Bool :=
  (dlookupL d k).isSome

/-- `d.get(k, default)` on a string-keyed object body. -/
def dGetD (d : List (String × J)) (k : String) (dflt : J) : J :=
  match dlookupL d k with
  | some v => v
  | none => dflt

/-- Equality of hashable (atomic) Python values, used for dict keys taken
from observation codes.  Lists and dicts are unhashable, and the extractor
raises before ever comparing them, so they compare unequal here. -/
def atomEq (a b : J) : Bool :=
  match a, b with
  | .null, .null => true
  | .str x, .str y => x = y
  | .num x, .num y => x = y
  | .bool x, .bool y => x = y
  | _, _ => false

/-- Python dict assignment `d[k] = v`: updates the first binding of an
equal key in place, else appends the new binding. -/
def dInsertAtom (k v : J) : List (J × J) → List (J × J)
  | [] => [(k, v)]
  | (k', v') :: t => if atomEq k k' then (k', v) :: t else (k', v') :: dInsertAtom k v t

/-- Python `str.lower()` (restricted to its ASCII action): lowercase every
character. -/
def pyLower (s : String) : String :=
  ⟨s.data.map Char.toLower⟩

/-- `pat in s` substring test on character lists (Python `in` on strings). -/
def subAux (l p : List Char) : Bool :=
  p.isPrefixOf l ||
    match l with
    | [] => false
    | _ :: t => subAux t p

/-- Python substring test `pat in s`. -/
def strContains (s pat : String) : Bool :=
  subAux s.data pat.data

section AgeRegex

/-- Characters matched by the regex class `\s` (ASCII part). -/
def isPySpace (c : Char) : Bool :=
  c = ' ' || c = '\t' || c = '\n' || c = '\r' || c = '\x0b' || c = '\x0c'

/-- Greedy `\d+`: the maximal leading digit run as a number, with the rest
of the input; fails when the input does not start with a digit. -/
def takeDigits (l : List Char) (acc : Nat) : Nat × List Char :=
  match l with
  | [] => (acc, [])
  | c :: t => if c.isDigit then takeDigits t (acc * 10 + (c.toNat - 48)) else (acc, c :: t)

/-- Greedy `\s*`. -/
def skipSpaces (l : List Char) : List Char :=
  match l with
  | [] => []
  | c :: t => if isPySpace c then skipSpaces t else c :: t

/-- Match the regex `(\d+)\s*-\s*(\d+)\s*years?` at the start of the
input.  For this pattern greedy matching never needs to backtrack: after a
maximal digit run the next character is not a digit, and `\s*` cannot span
one, so maximal munch is exact. -/
def matchAgeAt (l : List Char) : Option (Nat × Nat) :=
  match l with
  | [] => none
  | c :: t =>
    if c.isDigit then
      let (lo, r1) := takeDigits (c :: t) 0
      let r2 := skipSpaces r1
      match r2 with
      | '-' :: r3 =>
        let r4 := skipSpaces r3
        match r4 with
        | d :: u =>
          if d.isDigit then
            let (hi, r5) := takeDigits (d :: u) 0
            let r6 := skipSpaces r5
            if ['y', 'e', 'a', 'r'].isPrefixOf r6 then some (lo, hi) else none
          else none
        | [] => none
      | _ => none
    else none

/-- `re.search` for the age pattern: the match at the leftmost position
where one exists. -/
def searchAge : List Char → Option (Nat × Nat)
  | [] => none
  | c :: t =>
    match matchAgeAt (c :: t) with
    | some r => some r
    | none => searchAge t

end AgeRegex

section FeatureExtraction

/-- Modelled from the spec: the `FeatureVector` container class of
`ayusynapse.matcher.weighted_matcher`, which is not under `src/`; per §3
every field is optional/empty until set ("a field simply stays unset").
`gender` holds the raw resource value because `src/app.py` assigns
`resource['gender']` verbatim; `lab_values` is a Python dict in insertion
order keyed by observation codes. -/
structure FeatureVector where
  age : Option ℚ := none
  gender : Option J := none
  disease : Option String := none
  biomarkers : List String := []
  lab_values : List (J × J) := []

/-- The fixed biomarker vocabulary `['HER2', 'ER', 'PR', 'BRCA1', 'BRCA2']`
of `src/app.py`. -/
def BIOMARKER_VOCAB : List String := ["HER2", "ER", "PR", "BRCA1", "BRCA2"]

/-- The `Patient` branch of `create_feature_vector_from_bundle`
(src/app.py:249-257): presence of `birthDate` sets the placeholder age 50
("Simple age calculation" / "Placeholder" in the source); `gender` is
copied verbatim when present. -/
def patientStep (fv : FeatureVector) (r : List (String × J)) : FeatureVector :=
  let fv := if dContainsL r "birthDate" then { fv with age := some 50 } else fv
  match dlookupL r "gender" with
  | some g => { fv with gender := some g }
  | none => fv

/-- The `Condition` coding loop (src/app.py:262-265): the first coding
with a `display` sets `disease` to its lowercased text and breaks. -/
def condLoop (fv : FeatureVector) : List J → Except String FeatureVector
  | [] => .ok fv
  | coding :: rest =>
    match coding with
    | .obj cd =>
      match dlookupL cd "display" with
      | some (.str s) => .ok { fv with disease := some (pyLower s) }
      | some _ => .error "AttributeError: lower"
      | none => condLoop fv rest
    | _ => .error "TypeError: membership test on a non-object"

/-- Handling of one observation code (src/app.py:272-278): vocabulary
codes are appended to `biomarkers`; any other code is stored in
`lab_values` under `resource['valueQuantity']['value']` when a
`valueQuantity` is present — subscripting a quantity object that lacks
`value` raises, as in Python. -/
def labStore (fv : FeatureVector) (r : List (String × J)) (code : J) :
    Except String FeatureVector :=
  match dlookupL r "valueQuantity" with
  | none => .ok fv
  | some (.obj q) =>
    match dlookupL q "value" with
    | some v =>
      match code with
      | .arr _ => .error "TypeError: unhashable type"
      | .obj _ => .error "TypeError: unhashable type"
      | _ => .ok { fv with lab_values := dInsertAtom code v fv.lab_values }
    | none => .error "KeyError: value"
  | some _ => .error "TypeError: not subscriptable"

/-- Dispatch on one observation code: vocabulary codes go to `biomarkers`,
anything else to `labStore`. -/
def obsHandleCode (fv : FeatureVector) (r : List (String × J)) (code : J) :
    Except String FeatureVector :=
  match code with
  | .str s =>
    if s ∈ BIOMARKER_VOCAB then .ok { fv with biomarkers := fv.biomarkers ++ [s] }
    else labStore fv r (.str s)
  | c => labStore fv r c

/-- The `Observation` coding loop (src/app.py:270-278): every coding with
a `code` is processed; there is no break. -/
def obsLoop (fv : FeatureVector) (r : List (String × J)) :
    List J → Except String FeatureVector
  | [] => .ok fv
  | coding :: rest =>
    match coding with
    | .obj cd =>
      match dlookupL cd "code" with
      | some code =>
        match obsHandleCode fv r code with
        | .ok fv' => obsLoop fv' r rest
        | .error e => .error e
      | none => obsLoop fv r rest
    | _ => .error "TypeError: membership test on a non-object"

/-- The common `if 'code' in resource and 'coding' in resource['code']`
guard (src/app.py:261, 269): yields the coding list when both keys are
present, `none` when a guard fails, and raises on non-object/non-list
shapes. -/
def codingsOf (r : List (String × J)) : Except String (Option (List J)) :=
  match dlookupL r "code" with
  | none => .ok none
  | some (.obj c) =>
    match dlookupL c "coding" with
    | none => .ok none
    | some (.arr cs) => .ok (some cs)
    | some _ => .error "TypeError: not iterable"
  | some _ => .error "TypeError: membership test on a non-object"

/-- One iteration of the entry loop of `create_feature_vector_from_bundle`
(src/app.py:245-278). -/
def stepEntry (fv : FeatureVector) (entry : J) : Except String FeatureVector :=
  match entry with
  | .obj e =>
    match dGetD e "resource" (.obj []) with
    | .obj r =>
      match dGetD r "resourceType" .null with
      | .str rt =>
        if rt = "Patient" then .ok (patientStep fv r)
        else if rt = "Condition" then
          match codingsOf r with
          | .ok (some cs) => condLoop fv cs
          | .ok none => .ok fv
          | .error e => .error e
        else if rt = "Observation" then
          match codingsOf r with
          | .ok (some cs) => obsLoop fv r cs
          | .ok none => .ok fv
          | .error e => .error e
        else .ok fv
      | _ => .ok fv
    | _ => .error "AttributeError: get"
  | _ => .error "AttributeError: get"

/-- The entry loop, threading the feature vector. -/
def entriesFold (fv : FeatureVector) : List J → Except String FeatureVector
  | [] => .ok fv
  | e :: rest =>
    match stepEntry fv e with
    | .ok fv' => entriesFold fv' rest
    | .error msg => .error msg

/-- `create_feature_vector_from_bundle` (src/app.py:240-280). -/
def create_feature_vector_from_bundle (bundle : J) : Except String FeatureVector :=
  match bundle with
  | .obj b =>
    match dGetD b "entry" (.arr []) with
    | .arr entries => entriesFold {} entries
    | _ => .error "TypeError: not iterable"
  | _ => .error "AttributeError: get"

/-- A trial record as consumed by `create_feature_vector_from_trial`:
the `{id, title, inclusion_criteria, exclusion_criteria}` shape of the
trial-record adapter, with `Option` for the code's `'key' in trial_data`
guards.  Only `title` and `inclusion_criteria` are read. -/
structure TrialData where
  title : Option String := none
  inclusion_criteria : Option String := none
deriving Repr

/-- The title branch of `create_feature_vector_from_trial`
(src/app.py:287-292): keyword containment on the lowercased title sets
`disease`. -/
def trialTitleStep (fv : FeatureVector) : Option String → FeatureVector
  | some ti =>
    let lt := pyLower ti
    if strContains lt "cancer" || strContains lt "carcinoma" then
      { fv with disease := some "cancer" }
    else if strContains lt "diabetes" then
      { fv with disease := some "diabetes" }
    else fv
  | none => fv

/-- The inclusion-criteria branch of `create_feature_vector_from_trial`
(src/app.py:294-308): the age midpoint from the first regex match on the
lowercased criteria text, and biomarkers by case-insensitive substring
search over the fixed vocabulary (append order = vocabulary order). -/
def trialCriteriaStep (fv : FeatureVector) : Option String → FeatureVector
  | some ic =>
    let lc := pyLower ic
    let fv :=
      match searchAge lc.data with
      | some (lo, hi) => { fv with age := some (((lo : ℚ) + (hi : ℚ)) / 2) }
      | none => fv
    { fv with
        biomarkers := fv.biomarkers ++
          BIOMARKER_VOCAB.filter (fun b => strContains lc (pyLower b)) }
  | none => fv

/-- `create_feature_vector_from_trial` (src/app.py:282-310). -/
def create_feature_vector_from_trial (t : TrialData) : FeatureVector :=
  trialCriteriaStep (trialTitleStep {} t.title) t.inclusion_criteria

end FeatureExtraction

section Pipeline

/-- Modelled from the spec: the per-pair result record produced by the
Trial Data Processor / Weighted Matching Engine (`ayusynapse.matcher`,
not under `src/`).  `src/app.py:203-216` reads exactly these keys from
each result dict. -/
structure WeightedResult where
  trial_index : Nat
  match_score : ℚ
  is_eligible : Bool
  confidence : ℚ
  feature_contributions : List (String × ℚ) := []
deriving Repr, DecidableEq

/-- One element of the `patient_bundles` list consumed by
`match_patients_to_trials`: the per-file record built by
`process_patient_reports` (src/app.py:87-98), reduced to the fields the
pipeline reads (`success`, `filename`, `patient_bundle`). -/
structure PatientEntry where
  filename : String
  success : Bool
  patient_bundle : J := .null

/-- The converted per-trial record built at src/app.py:204-217, reduced to
the fields that the ranking step and the claims inspect. -/
structure ConvertedTrial where
  trial_id : String
  trial_title : String
  score : ℚ
  eligible : Bool
  confidence : ℚ
deriving Repr, DecidableEq

/-- The conversion loop of src/app.py:203-217: `trial_id` and
`trial_title` are rendered from `trial_index`, and the score is the match
score as a percentage. -/
def convertResults (rs : List WeightedResult) : List ConvertedTrial :=
  rs.map fun r =>
    { trial_id := "trial_" ++ toString r.trial_index
      trial_title := "Trial " ++ toString r.trial_index
      score := r.match_score * 100
      eligible := r.is_eligible
      confidence := r.confidence }

/-- The comparison underlying `trial_results.sort(key=..., reverse=True)`:
descending by score.  Python's sort is stable, which a stable insertion
sort with ties resolved in favour of the earlier element reproduces
exactly. -/
def scoreDescRel (a b : ConvertedTrial) : Prop := b.score ≤ a.score

instance : DecidableRel scoreDescRel := fun a b => inferInstanceAs (Decidable (b.score ≤ a.score))

instance : IsTotal ConvertedTrial scoreDescRel := ⟨fun a b => le_total b.score a.score⟩

instance : IsTrans ConvertedTrial scoreDescRel :=
  ⟨fun _ _ _ h1 h2 => le_trans h2 h1⟩

/-- Conversion followed by `trial_results.sort(key=lambda x:
x['result']['score'], reverse=True)` (src/app.py:203-220). -/
def rankTrialResults (rs : List WeightedResult) : List ConvertedTrial :=
  List.insertionSort scoreDescRel (convertResults rs)

/-- The `patients` accumulation loop of src/app.py:167-174: entries with
`success == False` are skipped; each successful bundle is converted to a
feature vector (an extraction failure propagates to the surrounding
`except`). -/
def collectPatients : List PatientEntry → Except String (List FeatureVector)
  | [] => .ok []
  | pb :: rest =>
    if pb.success then
      match create_feature_vector_from_bundle pb.patient_bundle with
      | .ok fv =>
        match collectPatients rest with
        | .ok more => .ok (fv :: more)
        | .error e => .error e
      | .error e => .error e
    else collectPatients rest

/-- One entry of the pipeline's output list (src/app.py:222-225). -/
structure PatientOutput where
  patient_filename : String
  ranked_trials : List ConvertedTrial
deriving Repr, DecidableEq

/-- The result-assembly loop of src/app.py:195-225: result list `i` is
labelled with `patient_bundles[i]['filename']` — an index into the FULL
bundle list, including failed entries — or `patient_{i}` when out of
range. -/
def assembleOutputs (patient_bundles : List PatientEntry)
    (results : List (List WeightedResult)) : List PatientOutput :=
  results.enum.map fun p =>
    { patient_filename :=
        match patient_bundles.get? p.1 with
        | some pb => pb.filename
        | none => "patient_" ++ toString p.1
      ranked_trials := rankTrialResults p.2 }

/-- Modelled from the spec: §4.4 — the Trial Data Processor
(`ayusynapse.matcher.trial_processor`, not under `src/`) returns one inner
sequence per patient, in trial input order, calling the engine's `score`
for every (patient, trial) pair.  The scoring function itself is a
parameter. -/
def processorRun (score : FeatureVector → FeatureVector → WeightedResult)
    (patients trials : List FeatureVector) : List (List WeightedResult) :=
  patients.map fun p => trials.map fun t => score p t

/-- `match_patients_to_trials` (src/app.py:160-238).  The surrounding
`try/except` returning `{'success': False, 'error': ...}` is the `.error`
branch; `.ok` is the `{'success': True, 'results': ...}` branch. -/
def match_patients_to_trials (score : FeatureVector → FeatureVector → WeightedResult)
    (patient_bundles : List PatientEntry) (trial_data : List TrialData) :
    Except String (List PatientOutput) :=
  match collectPatients patient_bundles with
  | .error e => .error e
  | .ok patients =>
    let trials := trial_data.map create_feature_vector_from_trial
    if patients.isEmpty || trials.isEmpty then
      .error "No valid patients or trials found"
    else
      .ok (assembleOutputs patient_bundles (processorRun score patients trials))

end Pipeline

section Database

/-- The `result` sub-dict of one ranked trial in the interchange shape
(`trial['result']` as read by `TrialMatchingDB.save_results`,
src/database.py:127-133); the criteria lists default to `[]` as with the
source's `.get(..., [])`. -/
structure MatchResultRec where
  eligible : Bool
  score : ℚ
  matched : List String := []
  unmatched : List String := []
  missing : List String := []
  exclusions_triggered : List String := []
  suggested_data : List String := []

/-- One ranked trial of the interchange shape
(`patient_result['ranked_trials'][j]`). -/
structure TrialRecord where
  trial_id : String
  trial_title : String
  result : MatchResultRec
  explanation : J := .obj []

/-- One per-patient result of the interchange shape
(`results[i]` as consumed by `save_results`). -/
structure PatientResult where
  patient_filename : String
  ranked_trials : List TrialRecord

/-- One row of the `uploads` table (src/database.py:29-37). -/
structure UploadRow where
  id : Nat
  timestamp : String
  trial_file : String
  patient_files : List String
  status : String

/-- One row of the `results` table, columns in `SELECT *` order
(src/database.py:40-58).  `json.dumps`/`json.loads` round the stored
lists/objects through text; the model keeps the values themselves. -/
structure ResultRow where
  id : Nat
  upload_id : Nat
  patient_filename : String
  trial_id : String
  trial_title : String
  eligible : Bool
  score : ℚ
  matched_criteria : List String
  unmatched_criteria : List String
  missing_data : List String
  exclusions : List String
  suggested_tests : List String
  explanation : J
  created_at : String

/-- The SQLite database contents relevant to the claims, with the
autoincrement counters of both tables. -/
structure DBState where
  uploads : List UploadRow := []
  results : List ResultRow := []
  nextUploadId : Nat := 1
  nextResultId : Nat := 1

/-- The rows inserted for one patient's ranked trials
(src/database.py:114-136), with consecutive autoincrement ids. -/
def rowsForPatient (uid : Nat) (pf now : String) : Nat → List TrialRecord → List ResultRow
  | _, [] => []
  | nid, t :: ts =>
    { id := nid
      upload_id := uid
      patient_filename := pf
      trial_id := t.trial_id
      trial_title := t.trial_title
      eligible := t.result.eligible
      score := t.result.score
      matched_criteria := t.result.matched
      unmatched_criteria := t.result.unmatched
      missing_data := t.result.missing
      exclusions := t.result.exclusions_triggered
      suggested_tests := t.result.suggested_data
      explanation := t.explanation
      created_at := now } :: rowsForPatient uid pf now (nid + 1) ts

/-- All rows inserted by one `save_results` call, in insertion order. -/
def buildRows (uid nid : Nat) (now : String) : List PatientResult → List ResultRow
  | [] => []
  | p :: ps =>
    let rs := rowsForPatient uid p.patient_filename now nid p.ranked_trials
    rs ++ buildRows uid (nid + rs.length) now ps

/-- `TrialMatchingDB.save_results` (src/database.py:105-143) on an already
open connection: inserts one row per (patient, trial) pair.  `now` is
`datetime.now().isoformat()`. -/
def save_results_ok (uid : Nat) (results : List PatientResult) (db : DBState)
    (now : String) : DBState :=
  let rows := buildRows uid db.nextResultId now results
  { db with results := db.results ++ rows, nextResultId := db.nextResultId + rows.length }

/-- The dict built for one fetched row by `get_results_by_upload`
(src/database.py:187-202): note the read-side key names
`matched_criteria`, `unmatched_criteria`, `missing_data`, `exclusions`,
`suggested_tests`.  The `if row[i] else` guards never take the else branch
for saved rows, since `json.dumps` output is a non-empty string. -/
def rowToDict (r : ResultRow) : List (String × J) :=
  [("id", .num r.id),
   ("upload_id", .num r.upload_id),
   ("patient_filename", .str r.patient_filename),
   ("trial_id", .str r.trial_id),
   ("trial_title", .str r.trial_title),
   ("eligible", .bool r.eligible),
   ("score", .num r.score),
   ("matched_criteria", .arr (r.matched_criteria.map .str)),
   ("unmatched_criteria", .arr (r.unmatched_criteria.map .str)),
   ("missing_data", .arr (r.missing_data.map .str)),
   ("exclusions", .arr (r.exclusions.map .str)),
   ("suggested_tests", .arr (r.suggested_tests.map .str)),
   ("explanation", r.explanation),
   ("created_at", .str r.created_at)]

/-- `ORDER BY patient_filename, score DESC` as a total preorder on result
rows. -/
def sqlOrderRel (a b : ResultRow) : Prop :=
  a.patient_filename < b.patient_filename ∨
    (a.patient_filename = b.patient_filename ∧ b.score ≤ a.score)

instance : DecidableRel sqlOrderRel := fun a b =>
  inferInstanceAs (Decidable (a.patient_filename < b.patient_filename ∨
    (a.patient_filename = b.patient_filename ∧ b.score ≤ a.score)))

/-- `TrialMatchingDB.get_results_by_upload` (src/database.py:174-208) on
an already open connection: filter by upload id, order by
(patient_filename, score DESC), convert each row to its dict. -/
def get_results_by_upload_ok (uid : Nat) (db : DBState) : List (List (String × J)) :=
  (List.insertionSort sqlOrderRel
      (db.results.filter fun r => r.upload_id == uid)).map rowToDict

/-- The dict built for one upload row by `get_upload_history`
(src/database.py:158-166). -/
def uploadToDict (u : UploadRow) : List (String × J) :=
  [("id", .num u.id),
   ("timestamp", .str u.timestamp),
   ("trial_file", .str u.trial_file),
   ("patient_files", .arr (u.patient_files.map .str)),
   ("status", .str u.status)]

/-- `ORDER BY timestamp DESC` on upload rows. -/
def uploadOrderRel (a b : UploadRow) : Prop := b.timestamp ≤ a.timestamp

instance : DecidableRel uploadOrderRel := fun a b =>
  inferInstanceAs (Decidable (b.timestamp ≤ a.timestamp))

/-- The outcome of the underlying SQLite interaction: `.ok` with the
database contents, or `.error` when the library raises. -/
abbrev DBConn := Except String DBState

/-- `TrialMatchingDB.get_upload_history` (src/database.py:145-172): any
underlying error is caught and the empty list returned. -/
def get_upload_history (limit : Nat) (conn : DBConn) : List (List (String × J)) :=
  match conn with
  | .error _ => []
  | .ok db =>
    ((List.insertionSort uploadOrderRel db.uploads).take limit).map uploadToDict

/-- `TrialMatchingDB.get_results_by_upload` with its `try/except`
(src/database.py:174-208): any underlying error yields `[]`. -/
def get_results_by_upload (uid : Nat) (conn : DBConn) : List (List (String × J)) :=
  match conn with
  | .error _ => []
  | .ok db => get_results_by_upload_ok uid db

/-- `TrialMatchingDB.get_statistics` (src/database.py:210-248): counts on
success, the all-zero record on any underlying error. -/
def get_statistics (conn : DBConn) (now : String) : List (String × J) :=
  match conn with
  | .error _ =>
    [("total_uploads", .num 0),
     ("total_patients", .num 0),
     ("total_trials", .num 0),
     ("successful_matches", .num 0),
     ("last_updated", .str now)]
  | .ok db =>
    [("total_uploads", .num db.uploads.length),
     ("total_patients", .num ((db.results.map (·.patient_filename)).dedup.length)),
     ("total_trials", .num ((db.results.map (·.trial_id)).dedup.length)),
     ("successful_matches", .num ((db.results.filter (·.eligible)).length)),
     ("last_updated", .str now)]

/-- `TrialMatchingDB.save_upload` (src/database.py:79-103): inserts a row
and returns `lastrowid`; an underlying error is logged and re-raised. -/
def save_upload (trial_file : String) (patient_files : List String) (now : String)
    (conn : DBConn) : Except String (Nat × DBState) :=
  match conn with
  | .error e => .error e
  | .ok db =>
    let row : UploadRow :=
      { id := db.nextUploadId, timestamp := now, trial_file := trial_file
        patient_files := patient_files, status := "completed" }
    .ok (db.nextUploadId,
      { db with uploads := db.uploads ++ [row], nextUploadId := db.nextUploadId + 1 })

/-- `TrialMatchingDB.save_results` with its `try/except`
(src/database.py:105-143): an underlying error is logged and re-raised. -/
def save_results (uid : Nat) (results : List PatientResult) (now : String)
    (conn : DBConn) : Except String DBState :=
  match conn with
  | .error e => .error e
  | .ok db => .ok (save_results_ok uid results db now)

end Database

section Upload

/-- `ALLOWED_EXTENSIONS` (src/app.py:42, src/simple_app.py:31). -/
def ALLOWED_EXTENSIONS : List String := ["txt", "pdf", "docx", "json"]

/-- Python `s.rsplit(sep, 1)` on character lists: split once at the last
separator; the whole input when the separator does not occur. -/
def pyRsplit1 (sep : Char) (cs : List Char) : List (List Char) :=
  let r := cs.reverse
  let afterRev := r.takeWhile (fun c => c ≠ sep)
  let rest := r.dropWhile (fun c => c ≠ sep)
  match rest with
  | [] => [cs]
  | _ :: beforeRev => [beforeRev.reverse, afterRev.reverse]

/-- `allowed_file` (src/app.py:51-53, src/simple_app.py:40-42):
`'.' in filename and filename.rsplit('.', 1)[1].lower() in
ALLOWED_EXTENSIONS`.  The subscript `[1]` is only reached under the
`'.' in filename` guard, where the split always has two parts. -/
def allowed_file (filename : String) : Bool :=
  filename.data.contains '.' &&
    match pyRsplit1 '.' filename.data with
    | [_, after] => pyLower ⟨after⟩ ∈ ALLOWED_EXTENSIONS
    | _ => false

/-- The suffix of a string after its last `'.'` — the declarative reading
of "the text after the last dot" against which `allowed_file` is
checked. -/
def afterLastDot (cs : List Char) : List Char :=
  (cs.reverse.takeWhile (fun c => c ≠ '.')).reverse

/-- The outcome of the upload endpoint: a flash-and-redirect, or the
rendered results of the processing pipeline. -/
inductive UploadResp where
  | redirect : String → UploadResp
  | page : List PatientOutput → UploadResp
deriving DecidableEq

/-- The validation gate of `upload_files` (src/app.py:317-345,
src/simple_app.py:163-191): empty-selection checks, then `allowed_file`
on the trial file and on every patient file, redirecting at the first
failure; only then does processing (`process`, standing for the save /
extract / match steps) run. -/
def upload_files (process : Unit → UploadResp) (trial_filename : String)
    (patient_filenames : List String) : UploadResp :=
  if trial_filename = "" then .redirect "No trial criteria file selected"
  else if patient_filenames.isEmpty || patient_filenames.head? = some "" then
    .redirect "No patient report files selected"
  else if !allowed_file trial_filename then
    .redirect "Invalid trial criteria file type"
  else
    match patient_filenames.find? (fun f => !allowed_file f) with
    | some f => .redirect ("Invalid patient report file type: " ++ f)
    | none => process ()

end Upload

section ConcreteInputs

/-- A patient bundle whose `Patient` resource carries birth date
1980-01-01. -/
def bundleBirth1980 : J := .obj [
  ("resourceType", .str "Bundle"),
  ("entry", .arr [
    .obj [("resource", .obj [
      ("resourceType", .str "Patient"),
      ("birthDate", .str "1980-01-01")])]])]

/-- The same bundle with birth date 2000-01-01. -/
def bundleBirth2000 : J := .obj [
  ("resourceType", .str "Bundle"),
  ("entry", .arr [
    .obj [("resource", .obj [
      ("resourceType", .str "Patient"),
      ("birthDate", .str "2000-01-01")])]])]

/-- A fixed scoring function standing in for the weighted engine when the
pipeline is evaluated on concrete inputs. -/
def constScore : FeatureVector → FeatureVector → WeightedResult :=
  fun _ _ => { trial_index := 0, match_score := 1/2, is_eligible := true, confidence := 1 }

/-- A patient-report entry whose processing failed. -/
def cexFailEntry : PatientEntry := { filename := "a.txt", success := false }

/-- A patient-report entry whose processing succeeded. -/
def cexOkEntry : PatientEntry :=
  { filename := "b.txt", success := true, patient_bundle := bundleBirth1980 }

/-- A concrete trial record. -/
def cexTrial : TrialData := { title := some "Cancer Study" }

end ConcreteInputs

/-- C6: the claim says the patient's age is computed from the bundle's
birth date relative to "now", so different birth dates yield different
ages.  The code (src/app.py:251-254) instead assigns the constant
placeholder 50 whenever a `birthDate` key is present: bundles with birth
dates 1980-01-01 and 2000-01-01 both extract age 50. -/
theorem C6_age_is_placeholder_50 :
    (create_feature_vector_from_bundle bundleBirth1980).map FeatureVector.age =
      .ok (some 50) ∧
    (create_feature_vector_from_bundle bundleBirth2000).map FeatureVector.age =
      .ok (some 50) ∧
    bundleBirth1980 ≠ bundleBirth2000 := by
  refine ⟨rfl, rfl, ?_⟩
  intro h
  rw [bundleBirth1980, bundleBirth2000] at h
  simp at h

/-- C2: batch isolation of failures holds, but filename attribution does
not.  With patient 0 failed (`a.txt`) and patient 1 successful (`b.txt`),
the pipeline indexes result 0 into the full bundle list
(src/app.py:196-197) and reports the successful patient's ranked trials
under `a.txt`, the failed patient's filename. -/
theorem C2_filename_misattribution :
    (match_patients_to_trials constScore [cexFailEntry, cexOkEntry] [cexTrial]).map
        (fun outs => outs.map PatientOutput.patient_filename) = .ok ["a.txt"] ∧
    cexFailEntry.success = false ∧
    cexOkEntry.success = true ∧ cexOkEntry.filename = "b.txt" :=
  ⟨rfl, rfl, rfl, rfl⟩

/-- C10: the read-side operations swallow any underlying database error —
`get_upload_history` and `get_results_by_upload` return `[]` and
`get_statistics` returns the record with all counts zero — while the
write-side operations `save_upload` and `save_results` re-raise it. -/
theorem C10_read_side_swallows_write_side_reraises (e : String) (limit uid : Nat)
    (now tf : String) (pfs : List String) (results : List PatientResult) :
    get_upload_history limit (.error e) = [] ∧
    get_results_by_upload uid (.error e) = [] ∧
    get_statistics (.error e) now =
      [("total_uploads", .num 0),
       ("total_patients", .num 0),
       ("total_trials", .num 0),
       ("successful_matches", .num 0),
       ("last_updated", .str now)] ∧
    save_upload tf pfs now (.error e) = .error e ∧
    save_results uid results now (.error e) = .error e :=
  ⟨rfl, rfl, rfl, rfl, rfl⟩

/-- `collectPatients` skips every unsuccessful entry. -/
theorem collectPatients_all_fail (bundles : List PatientEntry)
    (h : ∀ pb ∈ bundles, pb.success = false) : collectPatients bundles = .ok [] := by
  induction bundles with
  | nil => rfl
  | cons pb rest ih =>
    rw [collectPatients, h pb (List.mem_cons_self pb rest)]
    exact ih fun x hx => h x (List.mem_cons_of_mem pb hx)

/-- `collectPatients` succeeds when every successful entry's bundle
extracts. -/
theorem collectPatients_ok (bundles : List PatientEntry)
    (h : ∀ pb ∈ bundles, pb.success = true →
      ∃ fv, create_feature_vector_from_bundle pb.patient_bundle = .ok fv) :
    ∃ ps, collectPatients bundles = .ok ps := by
  induction bundles with
  | nil => exact ⟨[], rfl⟩
  | cons pb rest ih =>
    obtain ⟨ps, hps⟩ := ih fun x hx hs => h x (List.mem_cons_of_mem pb hx) hs
    rw [collectPatients]
    by_cases hs : pb.success
    · obtain ⟨fv, hfv⟩ := h pb (List.mem_cons_self pb rest) hs
      rw [if_pos hs, hfv, hps]
      exact ⟨fv :: ps, rfl⟩
    · rw [if_neg hs]
      exact ⟨ps, hps⟩

/-- C4: when no valid patient feature vector exists (every bundle entry
failed) or the trial list is empty, `match_patients_to_trials` returns the
empty-input error (src/app.py:183-187) before scoring: its result does not
depend on the scoring function, and no ranked results are produced. -/
theorem C4_empty_input_fails_fast (f g : FeatureVector → FeatureVector → WeightedResult)
    (bundles : List PatientEntry) (trials : List TrialData)
    (h : (∀ pb ∈ bundles, pb.success = false) ∨
      (trials = [] ∧ ∀ pb ∈ bundles, pb.success = true →
        ∃ fv, create_feature_vector_from_bundle pb.patient_bundle = .ok fv)) :
    match_patients_to_trials f bundles trials = .error "No valid patients or trials found" ∧
    match_patients_to_trials f bundles trials = match_patients_to_trials g bundles trials := by
  have key : ∀ h' : FeatureVector → FeatureVector → WeightedResult,
      match_patients_to_trials h' bundles trials = .error "No valid patients or trials found" := by
    intro h'
    rcases h with hfail | ⟨htr, hok⟩
    · rw [match_patients_to_trials, collectPatients_all_fail bundles hfail]
      rfl
    · obtain ⟨ps, hps⟩ := collectPatients_ok bundles hok
      rw [match_patients_to_trials, hps, htr]
      simp
  exact ⟨key f, (key f).trans (key g).symm⟩

/-- Witness for C4 at a concrete empty-patient input. -/
theorem C4_empty_input_fails_fast_witness :
    match_patients_to_trials constScore [cexFailEntry] [cexTrial] =
      .error "No valid patients or trials found" :=
  (C4_empty_input_fails_fast constScore constScore [cexFailEntry] [cexTrial]
    (Or.inl (by intro pb hpb; rw [List.mem_singleton] at hpb; rw [hpb]; rfl))).1

/-- When the separator occurs in the input, `rsplit('.', 1)` has exactly
two parts and the second one is the suffix after the last separator. -/
theorem pyRsplit1_dot (cs : List Char) (h : '.' ∈ cs) :
    ∃ before, pyRsplit1 '.' cs = [before, afterLastDot cs] := by
  rw [pyRsplit1]
  cases hrest : cs.reverse.dropWhile (fun c => decide (c ≠ '.')) with
  | nil =>
    exfalso
    have hall := List.dropWhile_eq_nil_iff.mp hrest '.' (List.mem_reverse.mpr h)
    simp at hall
  | cons x before =>
    refine ⟨before.reverse, ?_⟩
    simp only [hrest, afterLastDot]

/-- C9: `allowed_file` accepts exactly the filenames containing a dot
whose lowercased suffix after the last dot is in
`{txt, pdf, docx, json}`; and whenever the trial file or any patient file
fails `allowed_file`, the upload endpoint redirects with an error without
running the processing pipeline (its outcome is independent of the
processing function). -/
theorem C9_allowed_file_iff_and_gate :
    (∀ f : String, allowed_file f = true ↔
        ('.' ∈ f.data ∧ pyLower ⟨afterLastDot f.data⟩ ∈ ALLOWED_EXTENSIONS)) ∧
    (∀ (p q : Unit → UploadResp) (tf : String) (pfs : List String),
        (allowed_file tf = false ∨ ∃ f ∈ pfs, allowed_file f = false) →
        upload_files p tf pfs = upload_files q tf pfs ∧
        ∃ msg, upload_files p tf pfs = .redirect msg) := by
  constructor
  · intro f
    rw [allowed_file, Bool.and_eq_true]
    constructor
    · rintro ⟨h1, h2⟩
      have hmem : '.' ∈ f.data := by simpa using h1
      obtain ⟨before, hb⟩ := pyRsplit1_dot f.data hmem
      rw [hb] at h2
      exact ⟨hmem, by simpa using h2⟩
    · rintro ⟨h1, h2⟩
      obtain ⟨before, hb⟩ := pyRsplit1_dot f.data h1
      rw [hb]
      exact ⟨by simpa using h1, by simpa using h2⟩
  · intro p q tf pfs h
    simp only [upload_files]
    split_ifs with h1 h2 h3
    · exact ⟨rfl, _, rfl⟩
    · exact ⟨rfl, _, rfl⟩
    · exact ⟨rfl, _, rfl⟩
    · cases hf : pfs.find? (fun f => !allowed_file f) with
      | some f0 => exact ⟨rfl, _, rfl⟩
      | none =>
        exfalso
        have hforall := List.find?_eq_none.mp hf
        rcases h with htf | ⟨f0, hf0, hfa⟩
        · rw [htf] at h3
          simp at h3
        · have := hforall f0 hf0
          rw [hfa] at this
          simp at this

/-- Witness for C9 at a concrete disallowed patient file. -/
theorem C9_allowed_file_iff_and_gate_witness :
    (allowed_file "scan.PDF" = true ↔
      ('.' ∈ "scan.PDF".data ∧ pyLower ⟨afterLastDot "scan.PDF".data⟩ ∈ ALLOWED_EXTENSIONS)) ∧
    upload_files (fun _ => .page []) "trial.docx" ["notes.exe"] =
      upload_files (fun _ => .redirect "other") "trial.docx" ["notes.exe"] ∧
    ∃ msg, upload_files (fun _ => .page []) "trial.docx" ["notes.exe"] = .redirect msg :=
  ⟨C9_allowed_file_iff_and_gate.1 "scan.PDF",
   C9_allowed_file_iff_and_gate.2 (fun _ => .page []) (fun _ => .redirect "other")
     "trial.docx" ["notes.exe"] (Or.inr ⟨"notes.exe", List.mem_singleton.mpr rfl, rfl⟩)⟩

section RankingClaims

/-- A weighted result for trial index 2 with match score 1/2. -/
def wIdx2 : WeightedResult := { trial_index := 2, match_score := 1/2, is_eligible := true, confidence := 1 }

/-- A weighted result for trial index 10 with the same match score 1/2. -/
def wIdx10 : WeightedResult := { trial_index := 10, match_score := 1/2, is_eligible := true, confidence := 1 }

/-- C1 counterexample: the pipeline's ranking step is a plain stable sort
by score — permuting an input with identical scores permutes the output,
and equal-score results stay in input order `trial_2, trial_10` although
`"trial_10" < "trial_2"` as trial identifiers, so neither the claimed
permutation-invariance nor the claimed ascending tie order holds (and no
`min_score` filtering exists at all). -/
theorem C1_stable_sort_not_id_ordered :
    (rankTrialResults [wIdx2, wIdx10]).map ConvertedTrial.trial_id = ["trial_2", "trial_10"] ∧
    (rankTrialResults [wIdx10, wIdx2]).map ConvertedTrial.trial_id = ["trial_10", "trial_2"] ∧
    rankTrialResults [wIdx2, wIdx10] ≠ rankTrialResults [wIdx10, wIdx2] ∧
    wIdx2.match_score = wIdx10.match_score ∧
    ("trial_10".data < "trial_2".data) := by
  have h1 : (rankTrialResults [wIdx2, wIdx10]).map ConvertedTrial.trial_id =
      ["trial_2", "trial_10"] := by
    norm_num [rankTrialResults, List.insertionSort, List.orderedInsert, scoreDescRel,
      convertResults, wIdx2, wIdx10]
    exact ⟨rfl, rfl⟩
  have h2 : (rankTrialResults [wIdx10, wIdx2]).map ConvertedTrial.trial_id =
      ["trial_10", "trial_2"] := by
    norm_num [rankTrialResults, List.insertionSort, List.orderedInsert, scoreDescRel,
      convertResults, wIdx2, wIdx10]
    exact ⟨rfl, rfl⟩
  refine ⟨h1, h2, ?_, rfl, by decide⟩
  intro h
  rw [h, h2] at h1
  simp at h1

/-- C1 amended: the ranking step keeps every converted result (no
`min_score` filter), orders them descending by score, and — being a
stable sort with no secondary key — leaves any all-equal-score input in
its original (trial input) order. -/
theorem C1_rank_sorts_desc_keeps_all (rs : List WeightedResult) (q : ℚ) :
    List.Sorted scoreDescRel (rankTrialResults rs) ∧
    List.Perm (rankTrialResults rs) (convertResults rs) ∧
    ((∀ w ∈ rs, w.match_score = q) → rankTrialResults rs = convertResults rs) := by
  refine ⟨List.sorted_insertionSort scoreDescRel (convertResults rs),
    List.perm_insertionSort scoreDescRel (convertResults rs), ?_⟩
  intro hall
  have hsorted : List.Sorted scoreDescRel (convertResults rs) := by
    rw [List.Sorted, convertResults, List.pairwise_map]
    induction rs with
    | nil => exact List.Pairwise.nil
    | cons a t ih =>
      refine List.Pairwise.cons ?_ (ih fun w hw => hall w (List.mem_cons_of_mem a hw))
      intro b hb
      show (WeightedResult.match_score b) * 100 ≤ (WeightedResult.match_score a) * 100
      rw [hall a (List.mem_cons_self a t), hall b (List.mem_cons_of_mem a hb)]
  exact List.Sorted.insertionSort_eq hsorted

/-- Witness for C1 on a concrete equal-score input. -/
theorem C1_rank_sorts_desc_keeps_all_witness :
    rankTrialResults [wIdx10, wIdx2] = convertResults [wIdx10, wIdx2] ∧
    List.Sorted scoreDescRel (rankTrialResults [wIdx10, wIdx2]) :=
  ⟨(C1_rank_sorts_desc_keeps_all [wIdx10, wIdx2] (1/2)).2.2
     (by intro w hw; rcases List.mem_pair.mp hw with h | h <;> rw [h] <;> rfl),
   (C1_rank_sorts_desc_keeps_all [wIdx10, wIdx2] (1/2)).1⟩

end RankingClaims

section AgeClaims

/-- `searchAge` returns the match at the least position where one
exists. -/
theorem searchAge_of_first (l : List Char) (i : Nat) (lo hi : Nat)
    (hm : matchAgeAt (l.drop i) = some (lo, hi))
    (hmin : ∀ j, j < i → matchAgeAt (l.drop j) = none) :
    searchAge l = some (lo, hi) := by
  induction i generalizing l with
  | zero =>
    rw [List.drop_zero] at hm
    cases l with
    | nil => simp [matchAgeAt] at hm
    | cons c t => simp only [searchAge, hm]
  | succ i ih =>
    cases l with
    | nil =>
      rw [List.drop_nil] at hm
      simp [matchAgeAt] at hm
    | cons c t =>
      have h0 := hmin 0 (Nat.succ_pos i)
      rw [List.drop_zero] at h0
      simp only [searchAge, h0]
      refine ih t (by rwa [List.drop_succ_cons] at hm) ?_
      intro j hj
      have := hmin (j + 1) (Nat.succ_lt_succ hj)
      rwa [List.drop_succ_cons] at this

/-- `searchAge` fails when no position matches. -/
theorem searchAge_eq_none (l : List Char)
    (h : ∀ i, matchAgeAt (l.drop i) = none) : searchAge l = none := by
  induction l with
  | nil => rfl
  | cons c t ih =>
    have h0 := h 0
    rw [List.drop_zero] at h0
    simp only [searchAge, h0]
    refine ih ?_
    intro i
    have := h (i + 1)
    rwa [List.drop_succ_cons] at this

/-- The title branch never touches `age`. -/
theorem trialTitleStep_age (fv : FeatureVector) (o : Option String) :
    (trialTitleStep fv o).age = fv.age := by
  cases o with
  | none => rfl
  | some ti =>
    rw [trialTitleStep]
    split_ifs <;> rfl

/-- The criteria branch sets `age` from the regex search on the lowered
criteria text. -/
theorem trialCriteriaStep_age (fv : FeatureVector) (ic : String) :
    (trialCriteriaStep fv (some ic)).age =
      match searchAge (pyLower ic).data with
      | some (lo, hi) => some (((lo : ℚ) + (hi : ℚ)) / 2)
      | none => fv.age := by
  rw [trialCriteriaStep]
  cases hs : searchAge (pyLower ic).data with
  | none => simp only [hs]
  | some p =>
    rcases p with ⟨lo, hi⟩
    simp only [hs]

/-- C5: when the lowercased free-text inclusion criteria match the pattern
`(\d+)\s*-\s*(\d+)\s*years?` at some position `i` and at no earlier
position (i.e. `i` is the first occurrence, as `re.search` finds it), the
trial feature vector's age is the midpoint `(lo + hi) / 2` of that
occurrence; when no position matches — or there is no criteria text at
all — the age stays unset. -/
theorem C5_trial_age_is_first_match_midpoint (t : TrialData) :
    (∀ c lo hi i, t.inclusion_criteria = some c →
        matchAgeAt ((pyLower c).data.drop i) = some (lo, hi) →
        (∀ j, j < i → matchAgeAt ((pyLower c).data.drop j) = none) →
        (create_feature_vector_from_trial t).age = some (((lo : ℚ) + (hi : ℚ)) / 2)) ∧
    (∀ c, t.inclusion_criteria = some c →
        (∀ i, matchAgeAt ((pyLower c).data.drop i) = none) →
        (create_feature_vector_from_trial t).age = none) ∧
    (t.inclusion_criteria = none → (create_feature_vector_from_trial t).age = none) := by
  refine ⟨?_, ?_, ?_⟩
  · intro c lo hi i hc hm hmin
    rw [create_feature_vector_from_trial, hc, trialCriteriaStep_age,
      searchAge_of_first _ i lo hi hm hmin]
  · intro c hc hnone
    rw [create_feature_vector_from_trial, hc, trialCriteriaStep_age,
      searchAge_eq_none _ hnone]
    rw [trialTitleStep_age]
  · intro hc
    rw [create_feature_vector_from_trial, hc]
    show (trialTitleStep {} t.title).age = none
    rw [trialTitleStep_age]

/-- A concrete trial whose criteria text contains one age range. -/
def trialAge18to65 : TrialData := { inclusion_criteria := some "Aged 18 - 65 Years" }

/-- Witness for C5: `"Aged 18 - 65 Years"` first matches at position 5 and
the extracted age is (18 + 65) / 2. -/
theorem C5_trial_age_is_first_match_midpoint_witness :
    (create_feature_vector_from_trial trialAge18to65).age =
      some (((18 : ℚ) + (65 : ℚ)) / 2) :=
  (C5_trial_age_is_first_match_midpoint trialAge18to65).1 "Aged 18 - 65 Years" 18 65 5 rfl
    rfl (by intro j hj; interval_cases j <;> rfl)

end AgeClaims

section ExtractionLemmas

/-- Every disease value held by a feature vector is the lowercasing of
some source string. -/
def diseaseNorm (fv : FeatureVector) : Prop :=
  ∀ d, fv.disease = some d → ∃ s, d = pyLower s

/-- `condLoop` only ever touches `disease`, and only with lowercased
text. -/
theorem condLoop_props (fv : FeatureVector) (cs : List J) :
    ∀ fv', condLoop fv cs = .ok fv' →
      fv'.age = fv.age ∧ fv'.gender = fv.gender ∧ fv'.biomarkers = fv.biomarkers ∧
        fv'.lab_values = fv.lab_values ∧ (diseaseNorm fv → diseaseNorm fv') := by
  induction cs using condLoop.induct fv with
  | case1 =>
    intro fv' h
    rw [condLoop] at h
    cases h
    exact ⟨rfl, rfl, rfl, rfl, id⟩
  | case2 rest cd s hd =>
    intro fv' h
    simp only [condLoop, hd] at h
    cases h
    refine ⟨rfl, rfl, rfl, rfl, ?_⟩
    intro _ d hd2
    injection hd2 with hd2
    exact ⟨s, hd2.symm⟩
  | case3 rest cd val hval hd =>
    intro fv' h
    simp only [condLoop, hd] at h
    cases h
  | case4 rest cd hd ih =>
    intro fv' h
    simp only [condLoop, hd] at h
    exact ih fv' h
  | case5 coding rest hcn =>
    intro fv' h
    simp [condLoop, hcn] at h

/-- `labStore` only ever touches `lab_values`. -/
theorem labStore_props (fv fv' : FeatureVector) (r : List (String × J)) (code : J)
    (h : labStore fv r code = .ok fv') :
    fv'.age = fv.age ∧ fv'.gender = fv.gender ∧ fv'.disease = fv.disease ∧
      fv'.biomarkers = fv.biomarkers := by
  cases hq : dlookupL r "valueQuantity" with
  | none =>
    simp only [labStore, hq] at h
    cases h
    exact ⟨rfl, rfl, rfl, rfl⟩
  | some v =>
    cases v with
    | obj q =>
      cases hv : dlookupL q "value" with
      | none =>
        simp only [labStore, hq, hv] at h
        cases h
      | some w =>
        cases code <;> simp only [labStore, hq, hv] at h <;>
          (try cases h) <;> exact ⟨rfl, rfl, rfl, rfl⟩
    | null => simp only [labStore, hq] at h; cases h
    | str _ => simp only [labStore, hq] at h; cases h
    | num _ => simp only [labStore, hq] at h; cases h
    | bool _ => simp only [labStore, hq] at h; cases h
    | arr _ => simp only [labStore, hq] at h; cases h

/-- `obsHandleCode` never touches `age`, `gender` or `disease`. -/
theorem obsHandleCode_props (fv fv' : FeatureVector) (r : List (String × J)) (code : J)
    (h : obsHandleCode fv r code = .ok fv') :
    fv'.age = fv.age ∧ fv'.gender = fv.gender ∧ fv'.disease = fv.disease := by
  cases code with
  | str s =>
    by_cases hs : s ∈ BIOMARKER_VOCAB
    · simp only [obsHandleCode, if_pos hs] at h
      cases h
      exact ⟨rfl, rfl, rfl⟩
    · simp only [obsHandleCode, if_neg hs] at h
      obtain ⟨h1, h2, h3, _⟩ := labStore_props fv fv' r (.str s) h
      exact ⟨h1, h2, h3⟩
  | null =>
    obtain ⟨h1, h2, h3, _⟩ := labStore_props fv fv' r _ (by simpa only [obsHandleCode] using h)
    exact ⟨h1, h2, h3⟩
  | num q =>
    obtain ⟨h1, h2, h3, _⟩ := labStore_props fv fv' r _ (by simpa only [obsHandleCode] using h)
    exact ⟨h1, h2, h3⟩
  | bool b =>
    obtain ⟨h1, h2, h3, _⟩ := labStore_props fv fv' r _ (by simpa only [obsHandleCode] using h)
    exact ⟨h1, h2, h3⟩
  | arr l =>
    obtain ⟨h1, h2, h3, _⟩ := labStore_props fv fv' r _ (by simpa only [obsHandleCode] using h)
    exact ⟨h1, h2, h3⟩
  | obj o =>
    obtain ⟨h1, h2, h3, _⟩ := labStore_props fv fv' r _ (by simpa only [obsHandleCode] using h)
    exact ⟨h1, h2, h3⟩

/-- `obsLoop` never touches `age`, `gender` or `disease`. -/
theorem obsLoop_props (fv : FeatureVector) (r : List (String × J)) (cs : List J) :
    ∀ fv', obsLoop fv r cs = .ok fv' →
      fv'.age = fv.age ∧ fv'.gender = fv.gender ∧ fv'.disease = fv.disease := by
  induction fv, r, cs using obsLoop.induct with
  | case1 fv r =>
    intro fv' h
    rw [obsLoop] at h
    cases h
    exact ⟨rfl, rfl, rfl⟩
  | case2 fv r rest cd v hc fv1 hh ih =>
    intro fv' h
    simp only [obsLoop, hc, hh] at h
    obtain ⟨g1, g2, g3⟩ := obsHandleCode_props fv fv1 r v hh
    obtain ⟨k1, k2, k3⟩ := ih fv' h
    exact ⟨k1.trans g1, k2.trans g2, k3.trans g3⟩
  | case3 fv r rest cd v hc e hh =>
    intro fv' h
    simp only [obsLoop, hc, hh] at h
    cases h
  | case4 fv r rest cd hc ih =>
    intro fv' h
    simp only [obsLoop, hc] at h
    exact ih fv' h
  | case5 fv r coding rest hcn =>
    intro fv' h
    simp [obsLoop, hcn] at h

/-- `patientStep` never touches `disease` or `biomarkers`, and leaves
`gender`/`age` alone when the resource lacks the respective key. -/
theorem patientStep_props (fv : FeatureVector) (r : List (String × J)) :
    (patientStep fv r).disease = fv.disease ∧
      (patientStep fv r).biomarkers = fv.biomarkers ∧
      (patientStep fv r).lab_values = fv.lab_values ∧
      (dContainsL r "gender" = false → (patientStep fv r).gender = fv.gender) ∧
      (dContainsL r "birthDate" = false → (patientStep fv r).age = fv.age) := by
  rw [patientStep]
  cases hg : dlookupL r "gender" with
  | none =>
    by_cases hb : dContainsL r "birthDate"
    · rw [if_pos hb]
      refine ⟨rfl, rfl, rfl, fun _ => rfl, fun hb' => ?_⟩
      rw [hb] at hb'
      cases hb'
    · rw [if_neg hb]
      exact ⟨rfl, rfl, rfl, fun _ => rfl, fun _ => rfl⟩
  | some g =>
    have hgc : dContainsL r "gender" = true := by
      rw [dContainsL, hg]
      rfl
    by_cases hb : dContainsL r "birthDate"
    · rw [if_pos hb]
      refine ⟨rfl, rfl, rfl, fun hg' => ?_, fun hb' => ?_⟩
      · rw [hgc] at hg'; cases hg'
      · rw [hb] at hb'; cases hb'
    · rw [if_neg hb]
      refine ⟨rfl, rfl, rfl, fun hg' => ?_, fun _ => rfl⟩
      rw [hgc] at hg'; cases hg'

end ExtractionLemmas

/-- Whether one bundle entry is a `Patient` resource carrying the given
key (the only way `create_feature_vector_from_bundle` can set `gender`
or `age`). -/
def entryHasPatientField (field : String) (e : J) : Bool :=
  match e with
  | .obj eb =>
    match dGetD eb "resource" (.obj []) with
    | .obj r =>
      (match dGetD r "resourceType" .null with
       | .str rt => rt = "Patient"
       | _ => false) && dContainsL r field
    | _ => false
  | _ => false

/-- A coding object carrying no `display` key (the only codings that make
`condLoop` leave `disease` untouched without raising; non-objects raise). -/
def codingNoDisplay (cd : J) : Bool :=
  match cd with
  | .obj cdb => !dContainsL cdb "display"
  | _ => false

/-- Whether one bundle entry is a `Condition` resource with a
display-carrying coding — the only way extraction sets `disease`. -/
def entryHasConditionDisplay (e : J) : Bool :=
  match e with
  | .obj eb =>
    match dGetD eb "resource" (.obj []) with
    | .obj r =>
      (match dGetD r "resourceType" .null with
       | .str rt => rt = "Condition"
       | _ => false) &&
      (match codingsOf r with
       | .ok (some cs) => cs.any fun cd => !codingNoDisplay cd
       | _ => false)
    | _ => false
  | _ => false

/-- Whether one bundle entry is an `Observation` resource carrying a
`valueQuantity` — the only way extraction stores a lab value. -/
def entryHasObsQuantity (e : J) : Bool :=
  match e with
  | .obj eb =>
    match dGetD eb "resource" (.obj []) with
    | .obj r =>
      (match dGetD r "resourceType" .null with
       | .str rt => rt = "Observation"
       | _ => false) && dContainsL r "valueQuantity"
    | _ => false
  | _ => false

/-- When no coding carries a `display`, the condition loop returns the
feature vector unchanged. -/
theorem condLoop_no_display (cs : List J) (fv fv' : FeatureVector)
    (hnd : ∀ cd ∈ cs, codingNoDisplay cd = true)
    (h : condLoop fv cs = .ok fv') : fv' = fv := by
  induction cs with
  | nil =>
    rw [condLoop] at h
    cases h
    rfl
  | cons coding rest ih =>
    have hc := hnd coding (List.mem_cons_self coding rest)
    cases coding with
    | obj cdb =>
      have hc' : (!dContainsL cdb "display") = true := hc
      rw [Bool.not_eq_true'] at hc'
      have hdn : dlookupL cdb "display" = none := by
        cases hdd : dlookupL cdb "display" with
        | none => rfl
        | some v =>
          have hct : dContainsL cdb "display" = true := by
            show (dlookupL cdb "display").isSome = true
            rw [hdd]
            rfl
          rw [hct] at hc'
          cases hc'
      simp only [condLoop, hdn] at h
      exact ih (fun cd hcd => hnd cd (List.mem_cons_of_mem _ hcd)) h
    | null => cases hc
    | str _ => cases hc
    | num _ => cases hc
    | bool _ => cases hc
    | arr _ => cases hc

/-- Without a `valueQuantity`, `labStore` is the identity. -/
theorem labStore_no_vq (fv fv' : FeatureVector) (r : List (String × J)) (code : J)
    (hvq : dlookupL r "valueQuantity" = none)
    (h : labStore fv r code = .ok fv') : fv' = fv := by
  simp only [labStore, hvq] at h
  cases h
  rfl

/-- Without a `valueQuantity`, handling one observation code leaves
`lab_values` untouched. -/
theorem obsHandleCode_no_vq (fv fv' : FeatureVector) (r : List (String × J)) (code : J)
    (hvq : dlookupL r "valueQuantity" = none)
    (h : obsHandleCode fv r code = .ok fv') : fv'.lab_values = fv.lab_values := by
  cases code with
  | str s =>
    by_cases hs : s ∈ BIOMARKER_VOCAB
    · simp only [obsHandleCode, if_pos hs] at h
      cases h
      rfl
    · simp only [obsHandleCode, if_neg hs] at h
      rw [labStore_no_vq fv fv' r (.str s) hvq h]
  | null => rw [labStore_no_vq fv fv' r _ hvq (by simpa only [obsHandleCode] using h)]
  | num q => rw [labStore_no_vq fv fv' r _ hvq (by simpa only [obsHandleCode] using h)]
  | bool b => rw [labStore_no_vq fv fv' r _ hvq (by simpa only [obsHandleCode] using h)]
  | arr l => rw [labStore_no_vq fv fv' r _ hvq (by simpa only [obsHandleCode] using h)]
  | obj o => rw [labStore_no_vq fv fv' r _ hvq (by simpa only [obsHandleCode] using h)]

/-- Without a `valueQuantity` on the resource, the observation loop leaves
`lab_values` untouched. -/
theorem obsLoop_no_vq (fv : FeatureVector) (r : List (String × J)) (cs : List J) :
    ∀ fv', obsLoop fv r cs = .ok fv' → dlookupL r "valueQuantity" = none →
      fv'.lab_values = fv.lab_values := by
  induction fv, r, cs using obsLoop.induct with
  | case1 fv r =>
    intro fv' h _
    rw [obsLoop] at h
    cases h
    rfl
  | case2 fv r rest cd v hc fv1 hh ih =>
    intro fv' h hvq
    simp only [obsLoop, hc, hh] at h
    rw [ih fv' h hvq, obsHandleCode_no_vq fv fv1 r v hvq hh]
  | case3 fv r rest cd v hc e hh =>
    intro fv' h hvq
    simp only [obsLoop, hc, hh] at h
    cases h
  | case4 fv r rest cd hc ih =>
    intro fv' h hvq
    simp only [obsLoop, hc] at h
    exact ih fv' h hvq
  | case5 fv r coding rest hcn =>
    intro fv' h hvq
    simp [obsLoop, hcn] at h

/-- One entry step preserves disease normalization, and preserves `gender`
and `age` unless the entry is a `Patient` resource carrying that key. -/
theorem stepEntry_props (fv fv' : FeatureVector) (e : J) (h : stepEntry fv e = .ok fv') :
    (diseaseNorm fv → diseaseNorm fv') ∧
      (entryHasPatientField "gender" e = false → fv'.gender = fv.gender) ∧
      (entryHasPatientField "birthDate" e = false → fv'.age = fv.age) ∧
      (entryHasConditionDisplay e = false → fv'.disease = fv.disease) ∧
      (entryHasObsQuantity e = false → fv'.lab_values = fv.lab_values) := by
  cases e with
  | obj eb =>
    cases hr : dGetD eb "resource" (.obj []) with
    | obj r =>
      cases hrt : dGetD r "resourceType" .null with
      | str rt =>
        by_cases hp : rt = "Patient"
        · subst hp
          simp only [stepEntry, hr, hrt, if_pos] at h
          cases h
          obtain ⟨p1, _, plab, p3, p4⟩ := patientStep_props fv r
          refine ⟨fun hn d hd => hn d (p1 ▸ hd), ?_, ?_, fun _ => p1, fun _ => plab⟩
          · intro hfield
            simp only [entryHasPatientField, hr, hrt, Bool.and_eq_false_iff] at hfield
            rcases hfield with hfield | hfield
            · simp at hfield
            · exact p3 hfield
          · intro hfield
            simp only [entryHasPatientField, hr, hrt, Bool.and_eq_false_iff] at hfield
            rcases hfield with hfield | hfield
            · simp at hfield
            · exact p4 hfield
        · have hgen : entryHasPatientField "gender" (J.obj eb) = false := by
            simp only [entryHasPatientField, hr, hrt, Bool.and_eq_false_iff]
            exact Or.inl (by simpa using hp)
          have hbir : entryHasPatientField "birthDate" (J.obj eb) = false := by
            simp only [entryHasPatientField, hr, hrt, Bool.and_eq_false_iff]
            exact Or.inl (by simpa using hp)
          by_cases hcnd : rt = "Condition"
          · subst hcnd
            simp only [stepEntry, hr, hrt, if_neg hp, if_pos] at h
            cases hco : codingsOf r with
            | ok o =>
              cases o with
              | some cs =>
                rw [hco] at h
                obtain ⟨q1, q2, _, q4, q5⟩ := condLoop_props fv cs fv' h
                refine ⟨q5, fun _ => q2, fun _ => q1, ?_, fun _ => q4⟩
                intro hnd
                simp only [entryHasConditionDisplay, hr, hrt, hco,
                  Bool.and_eq_false_iff] at hnd
                rcases hnd with hnd | hnd
                · simp at hnd
                · have hall : ∀ cd ∈ cs, codingNoDisplay cd = true := by
                    intro cd hcd
                    have := List.any_eq_false.mp hnd cd hcd
                    simpa using this
                  rw [condLoop_no_display cs fv fv' hall h]
              | none =>
                rw [hco] at h
                cases h
                exact ⟨id, fun _ => rfl, fun _ => rfl, fun _ => rfl, fun _ => rfl⟩
            | error e1 =>
              rw [hco] at h
              cases h
          · by_cases hobs : rt = "Observation"
            · subst hobs
              simp only [stepEntry, hr, hrt, if_neg hp, if_neg hcnd, if_pos] at h
              cases hco : codingsOf r with
              | ok o =>
                cases o with
                | some cs =>
                  rw [hco] at h
                  obtain ⟨q1, q2, q3⟩ := obsLoop_props fv r cs fv' h
                  refine ⟨fun hn d hd => hn d (q3 ▸ hd), fun _ => q2, fun _ => q1,
                    fun _ => q3, ?_⟩
                  intro hq
                  simp only [entryHasObsQuantity, hr, hrt, Bool.and_eq_false_iff] at hq
                  rcases hq with hq | hq
                  · simp at hq
                  · have hvq : dlookupL r "valueQuantity" = none := by
                      cases hvv : dlookupL r "valueQuantity" with
                      | none => rfl
                      | some v =>
                        have hct : dContainsL r "valueQuantity" = true := by
                          show (dlookupL r "valueQuantity").isSome = true
                          rw [hvv]
                          rfl
                        rw [hct] at hq
                        cases hq
                    exact obsLoop_no_vq fv r cs fv' h hvq
                | none =>
                  rw [hco] at h
                  cases h
                  exact ⟨id, fun _ => rfl, fun _ => rfl, fun _ => rfl, fun _ => rfl⟩
              | error e1 =>
                rw [hco] at h
                cases h
            · simp only [stepEntry, hr, hrt, if_neg hp, if_neg hcnd, if_neg hobs] at h
              cases h
              exact ⟨id, fun _ => rfl, fun _ => rfl, fun _ => rfl, fun _ => rfl⟩
      | null =>
        simp only [stepEntry, hr, hrt] at h
        cases h
        exact ⟨id, fun _ => rfl, fun _ => rfl, fun _ => rfl, fun _ => rfl⟩
      | num q =>
        simp only [stepEntry, hr, hrt] at h
        cases h
        exact ⟨id, fun _ => rfl, fun _ => rfl, fun _ => rfl, fun _ => rfl⟩
      | bool b =>
        simp only [stepEntry, hr, hrt] at h
        cases h
        exact ⟨id, fun _ => rfl, fun _ => rfl, fun _ => rfl, fun _ => rfl⟩
      | arr l =>
        simp only [stepEntry, hr, hrt] at h
        cases h
        exact ⟨id, fun _ => rfl, fun _ => rfl, fun _ => rfl, fun _ => rfl⟩
      | obj o =>
        simp only [stepEntry, hr, hrt] at h
        cases h
        exact ⟨id, fun _ => rfl, fun _ => rfl, fun _ => rfl, fun _ => rfl⟩
    | null => simp only [stepEntry, hr] at h; cases h
    | str _ => simp only [stepEntry, hr] at h; cases h
    | num _ => simp only [stepEntry, hr] at h; cases h
    | bool _ => simp only [stepEntry, hr] at h; cases h
    | arr _ => simp only [stepEntry, hr] at h; cases h
  | null => simp only [stepEntry] at h; cases h
  | str _ => simp only [stepEntry] at h; cases h
  | num _ => simp only [stepEntry] at h; cases h
  | bool _ => simp only [stepEntry] at h; cases h
  | arr _ => simp only [stepEntry] at h; cases h

/-- The entry fold preserves disease normalization, and each of `gender`,
`age`, `disease` and `lab_values` stays unchanged when no entry can set
it. -/
theorem entriesFold_props (fv : FeatureVector) (es : List J) :
    ∀ fv', entriesFold fv es = .ok fv' →
      (diseaseNorm fv → diseaseNorm fv') ∧
        ((∀ e ∈ es, entryHasPatientField "gender" e = false) → fv'.gender = fv.gender) ∧
        ((∀ e ∈ es, entryHasPatientField "birthDate" e = false) → fv'.age = fv.age) ∧
        ((∀ e ∈ es, entryHasConditionDisplay e = false) → fv'.disease = fv.disease) ∧
        ((∀ e ∈ es, entryHasObsQuantity e = false) → fv'.lab_values = fv.lab_values) := by
  induction fv, es using entriesFold.induct with
  | case1 fv =>
    intro fv' h
    rw [entriesFold] at h
    cases h
    exact ⟨id, fun _ => rfl, fun _ => rfl, fun _ => rfl, fun _ => rfl⟩
  | case2 fv e rest fv1 hstep ih =>
    intro fv' h
    simp only [entriesFold, hstep] at h
    obtain ⟨s1, s2, s3, s4, s5⟩ := stepEntry_props fv fv1 e hstep
    obtain ⟨k1, k2, k3, k4, k5⟩ := ih fv' h
    refine ⟨fun hn => k1 (s1 hn), fun hall => ?_, fun hall => ?_, fun hall => ?_,
      fun hall => ?_⟩
    · rw [k2 fun x hx => hall x (List.mem_cons_of_mem e hx),
        s2 (hall e (List.mem_cons_self e rest))]
    · rw [k3 fun x hx => hall x (List.mem_cons_of_mem e hx),
        s3 (hall e (List.mem_cons_self e rest))]
    · rw [k4 fun x hx => hall x (List.mem_cons_of_mem e hx),
        s4 (hall e (List.mem_cons_self e rest))]
    · rw [k5 fun x hx => hall x (List.mem_cons_of_mem e hx),
        s5 (hall e (List.mem_cons_self e rest))]
  | case3 fv e rest e1 hstep =>
    intro fv' h
    simp only [entriesFold, hstep] at h
    cases h

section InvariantClaims

/-- The title branch never touches `biomarkers`. -/
theorem trialTitleStep_biomarkers (fv : FeatureVector) (o : Option String) :
    (trialTitleStep fv o).biomarkers = fv.biomarkers := by
  cases o with
  | none => rfl
  | some ti =>
    rw [trialTitleStep]
    split_ifs <;> rfl

/-- The title branch sets `disease` to a fixed lowercase keyword or leaves
it alone. -/
theorem trialTitleStep_disease (fv : FeatureVector) (o : Option String) :
    (trialTitleStep fv o).disease = fv.disease ∨
      (trialTitleStep fv o).disease = some "cancer" ∨
      (trialTitleStep fv o).disease = some "diabetes" := by
  cases o with
  | none => exact Or.inl rfl
  | some ti =>
    rw [trialTitleStep]
    split_ifs
    · exact Or.inr (Or.inl rfl)
    · exact Or.inr (Or.inr rfl)
    · exact Or.inl rfl

/-- The criteria branch never touches `disease`. -/
theorem trialCriteriaStep_disease (fv : FeatureVector) (o : Option String) :
    (trialCriteriaStep fv o).disease = fv.disease := by
  cases o with
  | none => rfl
  | some ic =>
    rw [trialCriteriaStep]
    cases hs : searchAge (pyLower ic).data with
    | none => rfl
    | some p =>
      rcases p with ⟨lo, hi⟩
      rfl

/-- The criteria branch appends the filtered vocabulary to `biomarkers`. -/
theorem trialCriteriaStep_biomarkers (fv : FeatureVector) (ic : String) :
    (trialCriteriaStep fv (some ic)).biomarkers =
      fv.biomarkers ++
        BIOMARKER_VOCAB.filter (fun b => strContains (pyLower ic) (pyLower b)) := by
  rw [trialCriteriaStep]
  cases hs : searchAge (pyLower ic).data with
  | none => rfl
  | some p =>
    rcases p with ⟨lo, hi⟩
    rfl

/-- C7 amended: what does hold of the construction invariant.  Every
disease value produced by the bundle extractor is the lowercasing of some
source text; the trial extractor's biomarker list is duplicate-free (a
filter of the fixed five-element vocabulary); and the trial extractor's
disease values are lowercase keywords.  The bundle extractor's `gender`
and `biomarkers`, by contrast, are not normalized — see the
counterexample. -/
theorem C7_partial_invariants :
    (∀ b fv d, create_feature_vector_from_bundle b = .ok fv → fv.disease = some d →
        ∃ s, d = pyLower s) ∧
    (∀ t : TrialData, (create_feature_vector_from_trial t).biomarkers.Nodup) ∧
    (∀ t d, (create_feature_vector_from_trial t).disease = some d → d = pyLower d) := by
  refine ⟨?_, ?_, ?_⟩
  · intro b fv d hok hd
    cases b with
    | obj bb =>
      cases he : dGetD bb "entry" (.arr []) with
      | arr es =>
        simp only [create_feature_vector_from_bundle, he] at hok
        have hnorm0 : diseaseNorm {} := fun d0 hd0 => by cases hd0
        exact (entriesFold_props {} es fv hok).1 hnorm0 d hd
      | null => simp only [create_feature_vector_from_bundle, he] at hok; cases hok
      | str _ => simp only [create_feature_vector_from_bundle, he] at hok; cases hok
      | num _ => simp only [create_feature_vector_from_bundle, he] at hok; cases hok
      | bool _ => simp only [create_feature_vector_from_bundle, he] at hok; cases hok
      | obj _ => simp only [create_feature_vector_from_bundle, he] at hok; cases hok
    | null => simp only [create_feature_vector_from_bundle] at hok; cases hok
    | str _ => simp only [create_feature_vector_from_bundle] at hok; cases hok
    | num _ => simp only [create_feature_vector_from_bundle] at hok; cases hok
    | bool _ => simp only [create_feature_vector_from_bundle] at hok; cases hok
    | arr _ => simp only [create_feature_vector_from_bundle] at hok; cases hok
  · intro t
    rw [create_feature_vector_from_trial]
    cases hic : t.inclusion_criteria with
    | none =>
      show (trialTitleStep {} t.title).biomarkers.Nodup
      rw [trialTitleStep_biomarkers]
      exact List.nodup_nil
    | some ic =>
      rw [trialCriteriaStep_biomarkers, trialTitleStep_biomarkers]
      rw [List.nil_append]
      exact List.Nodup.filter _ (by decide)
  · intro t d hd
    rw [create_feature_vector_from_trial, trialCriteriaStep_disease] at hd
    rcases trialTitleStep_disease {} t.title with h | h | h
    · rw [h] at hd
      cases hd
    · rw [h] at hd
      injection hd with hd
      rw [← hd]
      rfl
    · rw [h] at hd
      injection hd with hd
      rw [← hd]
      rfl

/-- A bundle with a mixed-case `gender` and two `HER2` observations. -/
def genderDupBundle : J := .obj [
  ("entry", .arr [
    .obj [("resource", .obj [
      ("resourceType", .str "Patient"),
      ("gender", .str "Female")])],
    .obj [("resource", .obj [
      ("resourceType", .str "Observation"),
      ("code", .obj [("coding", .arr [.obj [("code", .str "HER2")]])])])],
    .obj [("resource", .obj [
      ("resourceType", .str "Observation"),
      ("code", .obj [("coding", .arr [.obj [("code", .str "HER2")]])])])]])]

/-- C7 counterexample: a bundle mentioning `HER2` in two observation
entries yields `biomarkers = [HER2, HER2]` (duplicates), and a `Patient`
gender `"Female"` is stored verbatim, not case-normalized. -/
theorem C7_duplicates_and_verbatim_gender :
    (create_feature_vector_from_bundle genderDupBundle).map FeatureVector.biomarkers =
      .ok ["HER2", "HER2"] ∧
    ¬(["HER2", "HER2"] : List String).Nodup ∧
    (create_feature_vector_from_bundle genderDupBundle).map FeatureVector.gender =
      .ok (some (.str "Female")) ∧
    pyLower "Female" ≠ "Female" := by
  refine ⟨rfl, by decide, rfl, ?_⟩
  intro h
  have h1 : pyLower "Female" = "female" := rfl
  rw [h1] at h
  exact absurd h (by decide)

/-- A bundle whose only entry is a `Condition` with display text. -/
def condOnlyBundle : J := .obj [
  ("entry", .arr [
    .obj [("resource", .obj [
      ("resourceType", .str "Condition"),
      ("code", .obj [("coding", .arr [.obj [
        ("code", .str "363418001"),
        ("display", .str "Biliary Cancer")]])])])]])]

/-- A trial with a cancer keyword in its title and a biomarker in its
criteria text. -/
def cancerTrial : TrialData :=
  { title := some "HER2 Breast Cancer Study", inclusion_criteria := some "HER2 positive" }

/-- Witness for C7 at concrete inputs. -/
theorem C7_partial_invariants_witness :
    (∃ s, "biliary cancer" = pyLower s) ∧
    (create_feature_vector_from_trial cancerTrial).biomarkers.Nodup ∧
    "cancer" = pyLower "cancer" :=
  ⟨C7_partial_invariants.1 condOnlyBundle
      { disease := some "biliary cancer" } "biliary cancer" rfl rfl,
   C7_partial_invariants.2.1 cancerTrial,
   C7_partial_invariants.2.2 cancerTrial "cancer" rfl⟩

end InvariantClaims

section SafetyClaims

/-- A well-formed coding object: `display` and `code`, when present, are
strings (Python would call `.lower()` on the one and hash the other). -/
def wfCoding (j : J) : Bool :=
  match j with
  | .obj cd =>
    (match dlookupL cd "display" with
     | some (.str _) => true
     | some _ => false
     | none => true) &&
    (match dlookupL cd "code" with
     | some (.str _) => true
     | some _ => false
     | none => true)
  | _ => false

/-- A well-formed `valueQuantity`: absent, or an object that does contain
a `value` entry (its absence is exactly the `KeyError` of the
counterexample). -/
def wfVQ (r : List (String × J)) : Bool :=
  match dlookupL r "valueQuantity" with
  | none => true
  | some (.obj q) => dContainsL q "value"
  | some _ => false

/-- A well-formed `code`/`coding` shape: both keys optional, but typed as
object / list of well-formed codings when present. -/
def wfCodings (r : List (String × J)) : Bool :=
  match dlookupL r "code" with
  | none => true
  | some (.obj c) =>
    match dlookupL c "coding" with
    | none => true
    | some (.arr cs) => cs.all wfCoding
    | some _ => false
  | some _ => false

/-- A well-formed resource body. -/
def wfResource (r : List (String × J)) : Bool := wfCodings r && wfVQ r

/-- A well-formed bundle entry: an object whose `resource` (defaulting to
`{}`) is an object with a well-formed body. -/
def wfEntry (j : J) : Bool :=
  match j with
  | .obj eb =>
    match dGetD eb "resource" (.obj []) with
    | .obj r => wfResource r
    | _ => false
  | _ => false

/-- A well-formed bundle: an object whose `entry` (defaulting to `[]`) is
a list of well-formed entries. -/
def wfBundle (j : J) : Bool :=
  match j with
  | .obj bb =>
    match dGetD bb "entry" (.arr []) with
    | .arr es => es.all wfEntry
    | _ => false
  | _ => false

/-- No entry of the bundle is a `Patient` resource carrying the given
key. -/
def bundleLacks (field : String) (j : J) : Bool :=
  match j with
  | .obj bb =>
    match dGetD bb "entry" (.arr []) with
    | .arr es => es.all fun e => !entryHasPatientField field e
    | _ => true
  | _ => true

/-- No entry of the bundle is a `Condition` with a display-carrying
coding. -/
def bundleLacksConditionDisplay (j : J) : Bool :=
  match j with
  | .obj bb =>
    match dGetD bb "entry" (.arr []) with
    | .arr es => es.all fun e => !entryHasConditionDisplay e
    | _ => true
  | _ => true

/-- No entry of the bundle is an `Observation` carrying a
`valueQuantity`. -/
def bundleLacksObsQuantity (j : J) : Bool :=
  match j with
  | .obj bb =>
    match dGetD bb "entry" (.arr []) with
    | .arr es => es.all fun e => !entryHasObsQuantity e
    | _ => true
  | _ => true

/-- `labStore` cannot raise on a string code when the resource's
`valueQuantity` is well-formed. -/
theorem labStore_total (r : List (String × J)) (hvq : wfVQ r = true)
    (fv : FeatureVector) (s : String) : ∃ fv', labStore fv r (.str s) = .ok fv' := by
  rw [wfVQ] at hvq
  cases hq : dlookupL r "valueQuantity" with
  | none => exact ⟨fv, by simp only [labStore, hq]⟩
  | some v =>
    rw [hq] at hvq
    cases v with
    | obj q =>
      have hvq' : (dlookupL q "value").isSome = true := hvq
      cases hv : dlookupL q "value" with
      | none => rw [hv] at hvq'; cases hvq'
      | some w =>
        exact ⟨{ fv with lab_values := dInsertAtom (.str s) w fv.lab_values },
          by simp only [labStore, hq, hv]⟩
    | null => cases hvq
    | str _ => cases hvq
    | num _ => cases hvq
    | bool _ => cases hvq
    | arr _ => cases hvq

/-- `obsHandleCode` cannot raise on a string code when the resource's
`valueQuantity` is well-formed. -/
theorem obsHandleCode_total (r : List (String × J)) (hvq : wfVQ r = true)
    (fv : FeatureVector) (s : String) : ∃ fv', obsHandleCode fv r (.str s) = .ok fv' := by
  by_cases hs : s ∈ BIOMARKER_VOCAB
  · exact ⟨{ fv with biomarkers := fv.biomarkers ++ [s] },
      by simp only [obsHandleCode, if_pos hs]⟩
  · obtain ⟨fv', hfv'⟩ := labStore_total r hvq fv s
    exact ⟨fv', by simp only [obsHandleCode, if_neg hs]; exact hfv'⟩

/-- `obsLoop` cannot raise on well-formed codings over a resource with a
well-formed `valueQuantity`. -/
theorem obsLoop_total (r : List (String × J)) (hvq : wfVQ r = true) (cs : List J)
    (hcs : ∀ cd ∈ cs, wfCoding cd = true) (fv : FeatureVector) :
    ∃ fv', obsLoop fv r cs = .ok fv' := by
  induction cs generalizing fv with
  | nil => exact ⟨fv, rfl⟩
  | cons coding rest ih =>
    have hco := hcs coding (List.mem_cons_self coding rest)
    have hrest : ∀ cd ∈ rest, wfCoding cd = true :=
      fun cd hcd => hcs cd (List.mem_cons_of_mem coding hcd)
    cases coding with
    | obj cd =>
      rw [wfCoding, Bool.and_eq_true] at hco
      cases hc : dlookupL cd "code" with
      | none =>
        obtain ⟨fv', hfv'⟩ := ih hrest fv
        exact ⟨fv', by simp only [obsLoop, hc]; exact hfv'⟩
      | some code =>
        rw [hc] at hco
        cases code with
        | str s =>
          obtain ⟨fv1, hfv1⟩ := obsHandleCode_total r hvq fv s
          obtain ⟨fv', hfv'⟩ := ih hrest fv1
          exact ⟨fv', by simp only [obsLoop, hc, hfv1]; exact hfv'⟩
        | null => cases hco.2
        | num _ => cases hco.2
        | bool _ => cases hco.2
        | arr _ => cases hco.2
        | obj _ => cases hco.2
    | null => cases hco
    | str _ => cases hco
    | num _ => cases hco
    | bool _ => cases hco
    | arr _ => cases hco

/-- `condLoop` cannot raise on well-formed codings. -/
theorem condLoop_total (cs : List J) (hcs : ∀ cd ∈ cs, wfCoding cd = true)
    (fv : FeatureVector) : ∃ fv', condLoop fv cs = .ok fv' := by
  induction cs generalizing fv with
  | nil => exact ⟨fv, rfl⟩
  | cons coding rest ih =>
    have hco := hcs coding (List.mem_cons_self coding rest)
    have hrest : ∀ cd ∈ rest, wfCoding cd = true :=
      fun cd hcd => hcs cd (List.mem_cons_of_mem coding hcd)
    cases coding with
    | obj cd =>
      rw [wfCoding, Bool.and_eq_true] at hco
      cases hd : dlookupL cd "display" with
      | none =>
        obtain ⟨fv', hfv'⟩ := ih hrest fv
        exact ⟨fv', by simp only [condLoop, hd]; exact hfv'⟩
      | some v =>
        rw [hd] at hco
        cases v with
        | str s => exact ⟨{ fv with disease := some (pyLower s) }, by simp only [condLoop, hd]⟩
        | null => cases hco.1
        | num _ => cases hco.1
        | bool _ => cases hco.1
        | arr _ => cases hco.1
        | obj _ => cases hco.1
    | null => cases hco
    | str _ => cases hco
    | num _ => cases hco
    | bool _ => cases hco
    | arr _ => cases hco

/-- Under a well-formed `code`/`coding` shape, the guard yields either no
codings or a list of well-formed ones, never an error. -/
theorem codingsOf_wf (r : List (String × J)) (h : wfCodings r = true) :
    codingsOf r = .ok none ∨
      ∃ cs, codingsOf r = .ok (some cs) ∧ ∀ cd ∈ cs, wfCoding cd = true := by
  cases hc : dlookupL r "code" with
  | none => exact Or.inl (by simp only [codingsOf, hc])
  | some v =>
    cases v with
    | obj c =>
      cases hcc : dlookupL c "coding" with
      | none => exact Or.inl (by simp only [codingsOf, hc, hcc])
      | some w =>
        cases w with
        | arr cs =>
          simp only [wfCodings, hc, hcc] at h
          refine Or.inr ⟨cs, by simp only [codingsOf, hc, hcc], ?_⟩
          intro cd hcd
          exact List.all_eq_true.mp h cd hcd
        | null => simp only [wfCodings, hc, hcc] at h; cases h
        | str _ => simp only [wfCodings, hc, hcc] at h; cases h
        | num _ => simp only [wfCodings, hc, hcc] at h; cases h
        | bool _ => simp only [wfCodings, hc, hcc] at h; cases h
        | obj _ => simp only [wfCodings, hc, hcc] at h; cases h
    | null => simp only [wfCodings, hc] at h; cases h
    | str _ => simp only [wfCodings, hc] at h; cases h
    | num _ => simp only [wfCodings, hc] at h; cases h
    | bool _ => simp only [wfCodings, hc] at h; cases h
    | arr _ => simp only [wfCodings, hc] at h; cases h

/-- One well-formed entry cannot make the extractor raise. -/
theorem stepEntry_total (e : J) (hwf : wfEntry e = true) (fv : FeatureVector) :
    ∃ fv', stepEntry fv e = .ok fv' := by
  cases e with
  | obj eb =>
    rw [wfEntry] at hwf
    cases hr : dGetD eb "resource" (.obj []) with
    | obj r =>
      rw [hr] at hwf
      replace hwf : (wfCodings r && wfVQ r) = true := hwf
      rw [Bool.and_eq_true] at hwf
      cases hrt : dGetD r "resourceType" .null with
      | str rt =>
        by_cases hp : rt = "Patient"
        · subst hp
          exact ⟨patientStep fv r, by simp only [stepEntry, hr, hrt, if_pos]⟩
        · by_cases hcnd : rt = "Condition"
          · subst hcnd
            rcases codingsOf_wf r hwf.1 with hnone | ⟨cs, hsome, hcs⟩
            · exact ⟨fv, by simp only [stepEntry, hr, hrt, if_neg hp, if_pos, hnone]⟩
            · obtain ⟨fv', hfv'⟩ := condLoop_total cs hcs fv
              exact ⟨fv', by simp only [stepEntry, hr, hrt, if_neg hp, if_pos, hsome]; exact hfv'⟩
          · by_cases hobs : rt = "Observation"
            · subst hobs
              rcases codingsOf_wf r hwf.1 with hnone | ⟨cs, hsome, hcs⟩
              · exact ⟨fv, by
                  simp only [stepEntry, hr, hrt, if_neg hp, if_neg hcnd, if_pos, hnone]⟩
              · obtain ⟨fv', hfv'⟩ := obsLoop_total r hwf.2 cs hcs fv
                exact ⟨fv', by
                  simp only [stepEntry, hr, hrt, if_neg hp, if_neg hcnd, if_pos, hsome]
                  exact hfv'⟩
            · exact ⟨fv, by simp only [stepEntry, hr, hrt, if_neg hp, if_neg hcnd, if_neg hobs]⟩
      | null => exact ⟨fv, by simp only [stepEntry, hr, hrt]⟩
      | num _ => exact ⟨fv, by simp only [stepEntry, hr, hrt]⟩
      | bool _ => exact ⟨fv, by simp only [stepEntry, hr, hrt]⟩
      | arr _ => exact ⟨fv, by simp only [stepEntry, hr, hrt]⟩
      | obj _ => exact ⟨fv, by simp only [stepEntry, hr, hrt]⟩
    | null => rw [hr] at hwf; cases hwf
    | str _ => rw [hr] at hwf; cases hwf
    | num _ => rw [hr] at hwf; cases hwf
    | bool _ => rw [hr] at hwf; cases hwf
    | arr _ => rw [hr] at hwf; cases hwf
  | null => cases hwf
  | str _ => cases hwf
  | num _ => cases hwf
  | bool _ => cases hwf
  | arr _ => cases hwf

/-- The entry fold cannot raise over well-formed entries. -/
theorem entriesFold_total (es : List J) (hwf : ∀ e ∈ es, wfEntry e = true)
    (fv : FeatureVector) : ∃ fv', entriesFold fv es = .ok fv' := by
  induction es generalizing fv with
  | nil => exact ⟨fv, rfl⟩
  | cons e rest ih =>
    obtain ⟨fv1, hfv1⟩ := stepEntry_total e (hwf e (List.mem_cons_self e rest)) fv
    obtain ⟨fv', hfv'⟩ := ih (fun x hx => hwf x (List.mem_cons_of_mem e hx)) fv1
    exact ⟨fv', by simp only [entriesFold, hfv1]; exact hfv'⟩

/-- C8 amended: on any well-formed bundle — entries are objects, resources
are objects, `code`/`coding`/`display` are typed when present, and any
`valueQuantity` object contains a `value` entry — extraction completes
without raising, and a missing optional field leaves the corresponding
feature unset: no `Patient` gender key means `gender = none`, no
`birthDate` key means `age = none`, no `Condition` coding carrying a
`display` means `disease = none`, and no `Observation` carrying a
`valueQuantity` means `lab_values` stays empty.  (A present
`valueQuantity` lacking `value` does raise — see the counterexample.) -/
theorem C8_wf_extraction_never_raises (b : J) (hwf : wfBundle b = true) :
    ∃ fv, create_feature_vector_from_bundle b = .ok fv ∧
      (bundleLacks "gender" b = true → fv.gender = none) ∧
      (bundleLacks "birthDate" b = true → fv.age = none) ∧
      (bundleLacksConditionDisplay b = true → fv.disease = none) ∧
      (bundleLacksObsQuantity b = true → fv.lab_values = []) := by
  cases b with
  | obj bb =>
    rw [wfBundle] at hwf
    cases he : dGetD bb "entry" (.arr []) with
    | arr es =>
      rw [he] at hwf
      obtain ⟨fv, hfv⟩ := entriesFold_total es (fun e hx => List.all_eq_true.mp hwf e hx) {}
      refine ⟨fv, by simp only [create_feature_vector_from_bundle, he]; exact hfv,
        ?_, ?_, ?_, ?_⟩
      · intro hlacks
        rw [bundleLacks, he] at hlacks
        have := (entriesFold_props {} es fv hfv).2.1 fun e hx => by
          have := List.all_eq_true.mp hlacks e hx
          simpa using this
        rw [this]
      · intro hlacks
        rw [bundleLacks, he] at hlacks
        have := (entriesFold_props {} es fv hfv).2.2.1 fun e hx => by
          have := List.all_eq_true.mp hlacks e hx
          simpa using this
        rw [this]
      · intro hlacks
        rw [bundleLacksConditionDisplay, he] at hlacks
        have := (entriesFold_props {} es fv hfv).2.2.2.1 fun e hx => by
          have := List.all_eq_true.mp hlacks e hx
          simpa using this
        rw [this]
      · intro hlacks
        rw [bundleLacksObsQuantity, he] at hlacks
        have := (entriesFold_props {} es fv hfv).2.2.2.2 fun e hx => by
          have := List.all_eq_true.mp hlacks e hx
          simpa using this
        rw [this]
    | null => rw [he] at hwf; cases hwf
    | str _ => rw [he] at hwf; cases hwf
    | num _ => rw [he] at hwf; cases hwf
    | bool _ => rw [he] at hwf; cases hwf
    | obj _ => rw [he] at hwf; cases hwf
  | null => cases hwf
  | str _ => cases hwf
  | num _ => cases hwf
  | bool _ => cases hwf
  | arr _ => cases hwf

/-- An observation whose `valueQuantity` object lacks the `value` entry. -/
def vqNoValueBundle : J := .obj [
  ("entry", .arr [
    .obj [("resource", .obj [
      ("resourceType", .str "Observation"),
      ("code", .obj [("coding", .arr [.obj [("code", .str "WBC")]])]),
      ("valueQuantity", .obj [("unit", .str "10*3/uL")])])]])]

/-- C8 counterexample: an `Observation` with a non-biomarker code and a
`valueQuantity` object lacking its numeric `value` — an observation
"without a numeric value" — makes extraction raise
(`resource['valueQuantity']['value']`, src/app.py:278) instead of leaving
the field unset. -/
theorem C8_raises_on_quantity_without_value :
    create_feature_vector_from_bundle vqNoValueBundle = .error "KeyError: value" := rfl

/-- A bundle exercising every "optional field absent" case of the claim:
a `Patient` with no gender and no birth date, a `Condition` whose coding
has no display, and an `Observation` with no `valueQuantity` at all. -/
def minimalBundle : J := .obj [
  ("entry", .arr [
    .obj [("resource", .obj [("resourceType", .str "Patient")])],
    .obj [("resource", .obj [
      ("resourceType", .str "Condition"),
      ("code", .obj [("coding", .arr [.obj [("code", .str "363418001")]])])])],
    .obj [("resource", .obj [
      ("resourceType", .str "Observation"),
      ("code", .obj [("coding", .arr [.obj [("code", .str "WBC")]])])])]])]

/-- Witness for C8 at the all-optionals-absent bundle, whose entries do
lack the gender and birth date keys, any condition display, and any
observation quantity. -/
theorem C8_wf_extraction_never_raises_witness :
    wfBundle minimalBundle = true ∧
      bundleLacks "gender" minimalBundle = true ∧
      bundleLacks "birthDate" minimalBundle = true ∧
      bundleLacksConditionDisplay minimalBundle = true ∧
      bundleLacksObsQuantity minimalBundle = true ∧
      ∃ fv, create_feature_vector_from_bundle minimalBundle = .ok fv ∧
        (bundleLacks "gender" minimalBundle = true → fv.gender = none) ∧
        (bundleLacks "birthDate" minimalBundle = true → fv.age = none) ∧
        (bundleLacksConditionDisplay minimalBundle = true → fv.disease = none) ∧
        (bundleLacksObsQuantity minimalBundle = true → fv.lab_values = []) :=
  ⟨rfl, rfl, rfl, rfl, rfl, C8_wf_extraction_never_raises minimalBundle rfl⟩

end SafetyClaims

section RoundTripClaims

/-- The record the round trip would have to produce for one saved
(patient, trial) pair: the saved values verbatim, but under the read-side
column names (`matched` comes back as `matched_criteria`, `unmatched` as
`unmatched_criteria`, `missing` as `missing_data`, `exclusions_triggered`
as `exclusions`, `suggested_data` as `suggested_tests`), plus the
storage-generated `id`, `upload_id` and `created_at`. -/
def expectedRowDict (uid nid : Nat) (now pf : String) (t : TrialRecord) :
    List (String × J) :=
  [("id", .num nid),
   ("upload_id", .num uid),
   ("patient_filename", .str pf),
   ("trial_id", .str t.trial_id),
   ("trial_title", .str t.trial_title),
   ("eligible", .bool t.result.eligible),
   ("score", .num t.result.score),
   ("matched_criteria", .arr (t.result.matched.map .str)),
   ("unmatched_criteria", .arr (t.result.unmatched.map .str)),
   ("missing_data", .arr (t.result.missing.map .str)),
   ("exclusions", .arr (t.result.exclusions_triggered.map .str)),
   ("suggested_tests", .arr (t.result.suggested_data.map .str)),
   ("explanation", t.explanation),
   ("created_at", .str now)]

/-- The expected records for one patient's ranked trials, with consecutive
ids. -/
def expectedForPatient (uid : Nat) (pf now : String) :
    Nat → List TrialRecord → List (List (String × J))
  | _, [] => []
  | nid, t :: ts => expectedRowDict uid nid now pf t :: expectedForPatient uid pf now (nid + 1) ts

/-- The expected records of a whole `save_results` call: one per
(patient, trial) pair, in save order. -/
def expectedRecords (uid nid : Nat) (now : String) :
    List PatientResult → List (List (String × J))
  | [] => []
  | p :: ps =>
    expectedForPatient uid p.patient_filename now nid p.ranked_trials ++
      expectedRecords uid (nid + p.ranked_trials.length) now ps

/-- The rows built for one patient convert to exactly the expected
records. -/
theorem rowsForPatient_map (uid : Nat) (pf now : String) (nid : Nat)
    (ts : List TrialRecord) :
    (rowsForPatient uid pf now nid ts).map rowToDict = expectedForPatient uid pf now nid ts := by
  induction ts generalizing nid with
  | nil => rfl
  | cons t rest ih =>
    rw [rowsForPatient, expectedForPatient, List.map_cons, ih]
    rfl

/-- One patient's rows count its ranked trials. -/
theorem rowsForPatient_length (uid : Nat) (pf now : String) (nid : Nat)
    (ts : List TrialRecord) :
    (rowsForPatient uid pf now nid ts).length = ts.length := by
  induction ts generalizing nid with
  | nil => rfl
  | cons t rest ih =>
    rw [rowsForPatient, List.length_cons, ih, List.length_cons]

/-- The saved rows convert to exactly the expected records. -/
theorem buildRows_map (uid nid : Nat) (now : String) (rs : List PatientResult) :
    (buildRows uid nid now rs).map rowToDict = expectedRecords uid nid now rs := by
  induction rs generalizing nid with
  | nil => rfl
  | cons p ps ih =>
    rw [buildRows, expectedRecords, List.map_append, rowsForPatient_map,
      rowsForPatient_length, ih]

/-- Every saved row carries the upload id it was saved under. -/
theorem buildRows_uid (uid nid : Nat) (now : String) (rs : List PatientResult) :
    ∀ row ∈ buildRows uid nid now rs, row.upload_id = uid := by
  induction rs generalizing nid with
  | nil => intro row h; cases h
  | cons p ps ih =>
    intro row h
    rw [buildRows] at h
    rcases List.mem_append.mp h with h1 | h1
    · clear h ih
      revert h1
      generalize nid = m
      induction p.ranked_trials generalizing m with
      | nil => intro h1; cases h1
      | cons t rest ih2 =>
        intro h1
        rw [rowsForPatient] at h1
        rcases List.mem_cons.mp h1 with h2 | h2
        · rw [h2]
        · exact ih2 (m + 1) h2
    · exact ih (nid + (rowsForPatient uid p.patient_filename now nid p.ranked_trials).length)
        row h1

/-- C3 amended: the round trip preserves one record per (patient, trial)
pair and every saved value, but under the read-side key names: when the
upload id is fresh, `get_results_by_upload` after `save_results` returns,
up to the `ORDER BY (patient_filename, score DESC)` permutation, exactly
the expected records — values copied field-for-field with `matched`
renamed to `matched_criteria`, `unmatched` to `unmatched_criteria`,
`missing` to `missing_data`, `exclusions_triggered` to `exclusions`, and
`suggested_data` to `suggested_tests`. -/
theorem C3_round_trip_renames_fields (uid : Nat) (results : List PatientResult)
    (db : DBState) (now : String)
    (hfresh : ∀ r ∈ db.results, r.upload_id ≠ uid) :
    List.Perm (get_results_by_upload_ok uid (save_results_ok uid results db now))
      (expectedRecords uid db.nextResultId now results) := by
  rw [get_results_by_upload_ok, save_results_ok]
  have hfilter : ((db.results ++ buildRows uid db.nextResultId now results).filter
      fun r => r.upload_id == uid) = buildRows uid db.nextResultId now results := by
    rw [List.filter_append]
    have h1 : (db.results.filter fun r => r.upload_id == uid) = [] := by
      rw [List.filter_eq_nil_iff]
      intro a ha
      simpa using hfresh a ha
    have h2 : ((buildRows uid db.nextResultId now results).filter
        fun r => r.upload_id == uid) = buildRows uid db.nextResultId now results := by
      rw [List.filter_eq_self]
      intro a ha
      simpa using buildRows_uid uid db.nextResultId now results a ha
    rw [h1, h2, List.nil_append]
  rw [hfilter, ← buildRows_map]
  exact (List.perm_insertionSort sqlOrderRel _).map rowToDict

/-- A concrete saved result carrying every interchange field. -/
def samplePatientResult : PatientResult :=
  { patient_filename := "p1.pdf"
    ranked_trials := [
      { trial_id := "NCT07062263"
        trial_title := "HER2+ Biliary Cancer Treatment Study"
        result :=
          { eligible := true
            score := 85
            matched := ["HER2 status: Positive"]
            unmatched := ["ECOG 1"]
            missing := ["Recent CBC results"]
            exclusions_triggered := []
            suggested_data := ["Order CBC"] }
        explanation := .obj [("summary", .str "ok")] }] }

/-- C3 counterexample: after saving a result whose `matched` list is
`["HER2 status: Positive"]`, the retrieved record has no field named
`matched` at all — the value comes back under the read-side name
`matched_criteria` (src/database.py:195) — so the interchange shape is not
preserved field-for-field. -/
theorem C3_matched_key_renamed :
    (get_results_by_upload_ok 7 (save_results_ok 7 [samplePatientResult] {} "t0")).map
        (fun rec => (dlookupL rec "matched", dlookupL rec "matched_criteria")) =
      [(none, some (.arr [.str "HER2 status: Positive"]))] := rfl

/-- Witness for C3 at the concrete saved result. -/
theorem C3_round_trip_renames_fields_witness :
    List.Perm
      (get_results_by_upload_ok 7 (save_results_ok 7 [samplePatientResult] {} "t0"))
      (expectedRecords 7 1 "t0" [samplePatientResult]) :=
  C3_round_trip_renames_fields 7 [samplePatientResult] {} "t0"
    (fun r hr => absurd hr (List.not_mem_nil r))

end RoundTripClaims
